import Mathlib

/-!
# The broadcast queue of `itb.h`

A shallow embedding of the `==>broadcast queue<==` section of `src/itb.h`
(lines 417-568): the circular message queue, the worker loop, the type and
callback registry and the two mutexes.

Modelling conventions.

* The file globals of `itb.h` are the fields of one record, `globals`; every C
  function is a function on that record.
* `int` indices and counters (`head`, `tail`, `type`, the totals) are natural
  numbers: they start at 0 and the code only ever increments them or assigns an
  already computed index.  Return codes are integers (`-1` is the error code).
  The naturals are unbounded, the `int` of the source is not: the record agrees
  with the source as long as a counter stays at most `INT_MAX`, and the theorem
  on the growth of `itb_broadcast_total_types` carries that bound.
* A heap array is the list of its cells; the null pointer is the array with no
  cell.  Reading or writing a cell that does not exist is undefined behaviour in
  C; a function that does so has no result (`none`).  `sem_wait` on a semaphore
  without permit blocks; the worker iteration has no result (`none`) there.
* A callback is a function pointer, identified by a number.  Invoking it is
  recorded in the history `calls`, with the message it received and the mutexes
  that were locked at that moment.  The arguments of `itb_broadcast_msg` are
  recorded in the history `broadcasts`.
* `pthread_mutex_lock` and `pthread_mutex_unlock` set and clear a flag.
* `malloc` and `realloc` take their outcome as an argument: `none` when the
  allocator returns the null pointer, `some fresh` when it succeeds and the new
  cells hold the (indeterminate) value `fresh`.
-/

namespace Itb

/-- A callback `void (*)(const itb_broadcast_msg_t *)`, identified by a number. -/
abbrev callback_t := Nat

/-- The message `itb_broadcast_msg_t`: a type tag and the union `extra`
(an `int flag` or a `void *data`, both a machine word here). -/
structure itb_broadcast_msg_t where
  type : Nat
  extra : Int
deriving DecidableEq, Repr

/-- The circular buffer `itb_broadcast_msg_queue_t`. -/
structure itb_broadcast_msg_queue_t where
  buffer : List itb_broadcast_msg_t
  head : Nat
  tail : Nat
deriving DecidableEq, Repr

/-- One callback invocation: which callback ran, the message it was handed and
which mutexes were locked while it ran. -/
structure invocation where
  callback : callback_t
  msg : itb_broadcast_msg_t
  itb_queue_mut : Bool
  itb_broadcast_mut : Bool
deriving DecidableEq, Repr

/-- The `itb_broadcast file globals`, with the two histories. -/
structure globals where
  queue : itb_broadcast_msg_queue_t
  itb_queue_sem : Nat
  itb_queue_mut : Bool
  itb_broadcast_mut : Bool
  itb_broadcast_total_types : Nat
  itb_broadcast_type_totals : List Nat
  itb_broadcast_callbacks : List (List callback_t)
  broadcasts : List itb_broadcast_msg_t
  calls : List invocation
deriving DecidableEq, Repr

/-- The globals when the process starts: static storage is zeroed, both
mutexes are free, the registry pointers are null. -/
def startup (ITB_BROADCAST_QUEUE_SIZE : Nat) : globals :=
  { queue := { buffer := List.replicate ITB_BROADCAST_QUEUE_SIZE ⟨0, 0⟩, head := 0, tail := 0 }
    itb_queue_sem := 0
    itb_queue_mut := false
    itb_broadcast_mut := false
    itb_broadcast_total_types := 0
    itb_broadcast_type_totals := []
    itb_broadcast_callbacks := []
    broadcasts := []
    calls := [] }

/-- The library call `realloc(ptr, n * sizeof cell)`: on success an array of `n`
cells that keeps the old cells; the cells beyond them hold `fresh`. -/
def realloc {α : Type} (outcome : Option α) (ptr : List α) (n : Nat) : Option (List α) :=
  match outcome with
  | none => none
  | some fresh => some (ptr.take n ++ List.replicate (n - ptr.length) fresh)

/-- The library call `malloc(n * sizeof cell)`. -/
def malloc {α : Type} (outcome : Option α) (n : Nat) : Option (List α) :=
  realloc outcome [] n

/-- The call `itb_broadcast_callbacks[msg.type][j](&msg)`, seen from the bus. -/
def invoke (callback : callback_t) (msg : itb_broadcast_msg_t) (g : globals) : globals :=
  { g with calls := g.calls ++ [⟨callback, msg, g.itb_queue_mut, g.itb_broadcast_mut⟩] }

/-- The loop `for (int j = 0; j < itb_broadcast_type_totals[msg.type]; ++j)` of
`itb_broadcast_msg`, entered at `j`.  The first argument bounds the number of
times the loop condition is evaluated. -/
def itb_broadcast_msg_loop (msg : itb_broadcast_msg_t) : Nat → Nat → globals → Option globals
  | 0, _, _ => none
  | fuel + 1, j, g =>
    match g.itb_broadcast_type_totals[msg.type]? with
    | none => none
    | some total =>
      if j < total then
        match g.itb_broadcast_callbacks[msg.type]? with
        | none => none
        | some cbs =>
          match cbs[j]? with
          | none => none
          | some cb => itb_broadcast_msg_loop msg fuel (j + 1) (invoke cb msg g)
      else some g

/-- The function `itb_broadcast_msg` (itb.h 487-494). -/
def itb_broadcast_msg (msg : itb_broadcast_msg_t) (g : globals) : Option globals :=
  let g := { g with broadcasts := g.broadcasts ++ [msg] }
  let g := { g with itb_broadcast_mut := true }
  match itb_broadcast_msg_loop msg ((g.itb_broadcast_type_totals[msg.type]?).getD 0 + 1) 0 g with
  | none => none
  | some g => some { g with itb_broadcast_mut := false }

/-- One iteration of the `while (1)` loop of `itb_broadcast_handler`
(itb.h 438-453). -/
def itb_broadcast_handler_iteration (ITB_BROADCAST_QUEUE_SIZE : Nat) (g : globals) :
    Option globals :=
  if g.itb_queue_sem = 0 then none
  else
    let g := { g with itb_queue_sem := g.itb_queue_sem - 1 }
    let g := { g with itb_queue_mut := true }
    if g.queue.tail ≠ g.queue.head then
      match g.queue.buffer[g.queue.tail]? with
      | none => none
      | some msg =>
        match itb_broadcast_msg msg g with
        | none => none
        | some g =>
          let next := g.queue.tail + 1
          let next := if next = ITB_BROADCAST_QUEUE_SIZE then 0 else next
          let g := { g with queue := { g.queue with tail := next } }
          some { g with itb_queue_mut := false }
    else some { g with itb_queue_mut := false }

/-- The worker `itb_broadcast_handler` (itb.h 437-455), run for `n` iterations
of its loop. -/
def itb_broadcast_handler (ITB_BROADCAST_QUEUE_SIZE : Nat) : Nat → globals → Option globals
  | 0, g => some g
  | n + 1, g =>
    match itb_broadcast_handler_iteration ITB_BROADCAST_QUEUE_SIZE g with
    | none => none
    | some g => itb_broadcast_handler ITB_BROADCAST_QUEUE_SIZE n g

/-- The function `itb_broadcast_init` (itb.h 457-469).  The worker thread it
starts runs `itb_broadcast_handler`, whose iterations are steps of their own. -/
def itb_broadcast_init (g : globals) : globals :=
  let g := { g with queue := { g.queue with head := 0 } }
  let g := { g with queue := { g.queue with tail := 0 } }
  { g with itb_queue_sem := 0 }

/-- The function `itb_broadcast_close` (itb.h 471-485).  The loop frees
`itb_broadcast_callbacks[i]` for every `i < itb_broadcast_total_types`, so each
of these cells is read.  The calls `sem_close` and `pthread_mutex_destroy`
(itb.h 472-474) leave no trace in the record: the semaphore and the two mutexes
are destroyed, and what a bus function does when it is called after the close
is not described by this development. -/
def itb_broadcast_close (g : globals) : Option globals :=
  if g.itb_broadcast_total_types ≤ g.itb_broadcast_callbacks.length then
    let g := { g with itb_broadcast_total_types := 0 }
    let g := { g with itb_broadcast_type_totals := [] }
    some { g with itb_broadcast_callbacks := [] }
  else none

/-- The function `itb_broadcast_queue_msg` (itb.h 496-514). -/
def itb_broadcast_queue_msg (ITB_BROADCAST_QUEUE_SIZE : Nat) (msg : itb_broadcast_msg_t)
    (g : globals) : Option (Int × globals) :=
  let g := { g with itb_queue_mut := true }
  let next := g.queue.head + 1
  let next := if next = ITB_BROADCAST_QUEUE_SIZE then 0 else next
  if next = g.queue.tail then
    let g := { g with itb_queue_mut := false }
    some (-1, g)
  else if next < g.queue.buffer.length then
    let g := { g with queue := { g.queue with buffer := g.queue.buffer.set next msg } }
    let g := { g with queue := { g.queue with head := next } }
    let g := { g with itb_queue_mut := false }
    let g := { g with itb_queue_sem := g.itb_queue_sem + 1 }
    some (0, g)
  else none

/-- The function `itb_broadcast_register_type` (itb.h 517-543).  `r1` and `r2`
are the outcomes of its two `realloc` calls.  Both new arrays have
`itb_broadcast_total_types` cells, so the two stores at index
`itb_broadcast_total_types - 1` are in bounds. -/
def itb_broadcast_register_type (r1 : Option Nat) (r2 : Option (List callback_t))
    (g : globals) : Int × globals :=
  let g := { g with itb_queue_mut := true }
  let g := { g with itb_broadcast_total_types := g.itb_broadcast_total_types + 1 }
  match realloc r1 g.itb_broadcast_type_totals g.itb_broadcast_total_types with
  | none => (-1, { g with itb_queue_mut := false })
  | some tempbtt =>
    match realloc r2 g.itb_broadcast_callbacks g.itb_broadcast_total_types with
    | none => (-1, { g with itb_queue_mut := false })
    | some tempbc =>
      let g := { g with itb_broadcast_type_totals := tempbtt }
      let g := { g with itb_broadcast_callbacks := tempbc }
      let g := { g with itb_broadcast_type_totals :=
                          g.itb_broadcast_type_totals.set (g.itb_broadcast_total_types - 1) 0 }
      let g := { g with itb_broadcast_callbacks :=
                          g.itb_broadcast_callbacks.set (g.itb_broadcast_total_types - 1) [] }
      let g := { g with itb_queue_mut := false }
      (((g.itb_broadcast_total_types - 1 : Nat) : Int), g)

/-- The end of `itb_broadcast_register_callback` (itb.h 564-567): the store
`itb_broadcast_callbacks[type][itb_broadcast_type_totals[type] - 1] = callback`,
the unlock and `return 0`. -/
def itb_broadcast_register_callback_store (type : Nat) (callback : callback_t)
    (g : globals) : Option (Int × globals) :=
  match g.itb_broadcast_type_totals[type]?, g.itb_broadcast_callbacks[type]? with
  | some total, some cbs =>
    if total - 1 < cbs.length then
      let g := { g with itb_broadcast_callbacks :=
                          g.itb_broadcast_callbacks.set type (cbs.set (total - 1) callback) }
      let g := { g with itb_queue_mut := false }
      some (0, g)
    else none
  | _, _ => none

/-- The function `itb_broadcast_register_callback` (itb.h 546-568).  `r` is the
outcome of its allocation: the `malloc` of the first callback of a type, whose
result is stored unchecked, or the `realloc` of the later ones. -/
def itb_broadcast_register_callback (r : Option callback_t) (type : Nat)
    (callback : callback_t) (g : globals) : Option (Int × globals) :=
  let g := { g with itb_queue_mut := true }
  match g.itb_broadcast_type_totals[type]? with
  | none => none
  | some old =>
    let g := { g with itb_broadcast_type_totals := g.itb_broadcast_type_totals.set type (old + 1) }
    if old = 0 then
      if type < g.itb_broadcast_callbacks.length then
        let g := { g with itb_broadcast_callbacks :=
                            g.itb_broadcast_callbacks.set type ((malloc r 1).getD []) }
        itb_broadcast_register_callback_store type callback g
      else none
    else
      match g.itb_broadcast_callbacks[type]? with
      | none => none
      | some cbs =>
        match realloc r cbs (old + 1) with
        | none =>
          let g := { g with itb_broadcast_type_totals :=
                              g.itb_broadcast_type_totals.set type (old + 1 - 1) }
          let g := { g with itb_queue_mut := false }
          some (-1, g)
        | some temp =>
          let g := { g with itb_broadcast_callbacks := g.itb_broadcast_callbacks.set type temp }
          itb_broadcast_register_callback_store type callback g

/-- Calls `itb_broadcast_queue_msg` on each message in turn and collects the
return codes. -/
def queue_msgs (ITB_BROADCAST_QUEUE_SIZE : Nat) :
    List itb_broadcast_msg_t → globals → Option (List Int × globals)
  | [], g => some ([], g)
  | msg :: msgs, g =>
    match itb_broadcast_queue_msg ITB_BROADCAST_QUEUE_SIZE msg g with
    | none => none
    | some (r, g) =>
      match queue_msgs ITB_BROADCAST_QUEUE_SIZE msgs g with
      | none => none
      | some (rs, g) => some (r :: rs, g)

/-- Calls `itb_broadcast_register_type` once per entry of the list, every
allocation succeeding (the entry gives the contents of the fresh cells), and
collects the returned identifiers. -/
def register_types : List (Nat × List callback_t) → globals → List Int × globals
  | [], g => ([], g)
  | fresh :: rest, g =>
    let r := itb_broadcast_register_type (some fresh.1) (some fresh.2) g
    let rs := register_types rest r.2
    (r.1 :: rs.1, rs.2)

/-- The callback list of a type: the first `itb_broadcast_type_totals[type]`
cells of `itb_broadcast_callbacks[type]`. -/
def callback_list (g : globals) (type : Nat) : List callback_t :=
  ((g.itb_broadcast_callbacks[type]?).getD []).take ((g.itb_broadcast_type_totals[type]?).getD 0)

/-- The registry is well formed: both arrays have `itb_broadcast_total_types`
cells and the callback array of each type has as many cells as its total says. -/
def registry_wf (g : globals) : Prop :=
  g.itb_broadcast_type_totals.length = g.itb_broadcast_total_types ∧
  g.itb_broadcast_callbacks.map List.length = g.itb_broadcast_type_totals

instance (g : globals) : Decidable (registry_wf g) := by
  unfold registry_wf; infer_instance

/-- The invocations a dispatch performs on a message for a list of callbacks,
with the state of the two mutexes during the dispatch. -/
def invocations (cbs : List callback_t) (msg : itb_broadcast_msg_t) (queue_mut : Bool)
    (broadcast_mut : Bool) : List invocation :=
  cbs.map (fun cb => ⟨cb, msg, queue_mut, broadcast_mut⟩)

/-- The public operations of the bus, with the outcome of their allocations. -/
inductive bus_op where
  | init
  | register_type (r1 : Option Nat) (r2 : Option (List callback_t))
  | register_callback (r : Option callback_t) (type : Nat) (callback : callback_t)
  | msg (m : itb_broadcast_msg_t)
  | queue_msg (m : itb_broadcast_msg_t)
  | close
deriving DecidableEq, Repr

/-- Runs one public operation. -/
def bus_op.run (ITB_BROADCAST_QUEUE_SIZE : Nat) : bus_op → globals → Option globals
  | .init, g => some (itb_broadcast_init g)
  | .register_type r1 r2, g => some (itb_broadcast_register_type r1 r2 g).2
  | .register_callback r type callback, g =>
    (itb_broadcast_register_callback r type callback g).map Prod.snd
  | .msg m, g => itb_broadcast_msg m g
  | .queue_msg m, g => (itb_broadcast_queue_msg ITB_BROADCAST_QUEUE_SIZE m g).map Prod.snd
  | .close, g => itb_broadcast_close g

/-- The states reached from `itb_broadcast_init` by complete calls of
`itb_broadcast_queue_msg` and complete iterations of the worker, each one
atomic step.  The queue has `ITB_BROADCAST_QUEUE_SIZE` slots. -/
inductive reachable (ITB_BROADCAST_QUEUE_SIZE : Nat) : globals → Prop where
  | init (g : globals) (hlen : g.queue.buffer.length = ITB_BROADCAST_QUEUE_SIZE) :
      reachable ITB_BROADCAST_QUEUE_SIZE (itb_broadcast_init g)
  | queue_msg (g : globals) (msg : itb_broadcast_msg_t) (r : Int) (g1 : globals)
      (hg : reachable ITB_BROADCAST_QUEUE_SIZE g)
      (hstep : itb_broadcast_queue_msg ITB_BROADCAST_QUEUE_SIZE msg g = some (r, g1)) :
      reachable ITB_BROADCAST_QUEUE_SIZE g1
  | worker (g : globals) (g1 : globals)
      (hg : reachable ITB_BROADCAST_QUEUE_SIZE g)
      (hstep : itb_broadcast_handler_iteration ITB_BROADCAST_QUEUE_SIZE g = some g1) :
      reachable ITB_BROADCAST_QUEUE_SIZE g1

/-- A queue of four slots that holds three messages: `head = 2`, `tail = 3`. -/
def full_queue : globals :=
  { startup 4 with
    queue := { buffer := [⟨0, 1⟩, ⟨0, 2⟩, ⟨0, 3⟩, ⟨0, 4⟩], head := 2, tail := 3 }
    itb_queue_sem := 3 }

/-- The bus of scenario B: four slots, started and initialised, with message
type 0 registered. -/
def scenario_b : globals :=
  (itb_broadcast_register_type (some 0) (some []) (itb_broadcast_init (startup 4))).2

/-- The bus of scenario B after one message has been queued. -/
def scenario_b_queued : globals :=
  { itb_broadcast_init scenario_b with
    queue := { buffer := [⟨0, 0⟩, ⟨0, 42⟩, ⟨0, 0⟩, ⟨0, 0⟩], head := 1, tail := 0 }
    itb_queue_sem := 1 }

/-- The bus of scenario C: two types registered, callbacks `10` (A) and then
`11` (B) registered on type 1. -/
def scenario_c : globals :=
  { startup 16 with
    itb_broadcast_total_types := 2
    itb_broadcast_type_totals := [0, 2]
    itb_broadcast_callbacks := [[], [10, 11]] }

/-- The bus of scenario C before callback B is registered. -/
def scenario_c_before : globals :=
  { startup 16 with
    itb_broadcast_total_types := 2
    itb_broadcast_type_totals := [0, 1]
    itb_broadcast_callbacks := [[], [10]] }

/-- The bus of scenario A with one message queued: four slots, type 0
registered with the callback `10`, `head = 1`, `tail = 0`, one permit. -/
def scenario_a_queued : globals :=
  { scenario_b_queued with
    itb_broadcast_type_totals := [1]
    itb_broadcast_callbacks := [[10]] }

/-- The globals after one complete worker iteration on `scenario_a_queued`. -/
def scenario_a_drained : globals :=
  { scenario_a_queued with
    queue := { scenario_a_queued.queue with tail := 1 }
    itb_queue_sem := 0
    broadcasts := [⟨0, 0⟩]
    calls := [⟨10, ⟨0, 0⟩, true, true⟩] }

/-- The globals after `itb_broadcast_msg` of the message `(0, 42)` on
`scenario_a_queued`. -/
def scenario_a_posted : globals :=
  { scenario_a_queued with
    broadcasts := [⟨0, 42⟩]
    calls := [⟨10, ⟨0, 42⟩, false, true⟩] }

/-- The largest value of an `int`. -/
def INT_MAX : Nat := 2147483647

/-- Runs public operations one after the other. -/
def run_ops (ITB_BROADCAST_QUEUE_SIZE : Nat) : List bus_op → globals → Option globals
  | [], g => some g
  | op :: ops, g =>
    match op.run ITB_BROADCAST_QUEUE_SIZE g with
    | none => none
    | some g => run_ops ITB_BROADCAST_QUEUE_SIZE ops g

/-! ## Lemmas on the dispatch loop -/

theorem itb_broadcast_msg_loop_spec (msg : itb_broadcast_msg_t) (fuel j : Nat) (g g1 : globals)
    (h : itb_broadcast_msg_loop msg fuel j g = some g1) :
    ∃ new, g1 = { g with calls := g.calls ++ new } ∧
      ∀ i ∈ new, i.msg = msg ∧ i.itb_queue_mut = g.itb_queue_mut ∧
        i.itb_broadcast_mut = g.itb_broadcast_mut := by
  induction fuel generalizing j g with
  | zero => simp [itb_broadcast_msg_loop] at h
  | succ fuel ih =>
    unfold itb_broadcast_msg_loop at h
    split at h
    · simp at h
    · split at h
      · split at h
        · simp at h
        · split at h
          · simp at h
          · rename_i cb _
            obtain ⟨new, hnew, hall⟩ := ih _ _ h
            refine ⟨⟨cb, msg, g.itb_queue_mut, g.itb_broadcast_mut⟩ :: new, ?_, ?_⟩
            · simp [hnew, invoke]
            · intro i hi
              rcases List.mem_cons.1 hi with rfl | hi
              · simp
              · simpa [invoke] using hall i hi
      · refine ⟨[], ?_, by simp⟩
        simp at h
        simp [← h]

theorem itb_broadcast_msg_spec (msg : itb_broadcast_msg_t) (g g1 : globals)
    (h : itb_broadcast_msg msg g = some g1) :
    ∃ new, g1 = { g with broadcasts := g.broadcasts ++ [msg], itb_broadcast_mut := false,
                         calls := g.calls ++ new } ∧
      ∀ i ∈ new, i.msg = msg ∧ i.itb_queue_mut = g.itb_queue_mut ∧ i.itb_broadcast_mut = true := by
  unfold itb_broadcast_msg at h
  simp only at h
  split at h
  · simp at h
  · rename_i g2 hloop
    obtain ⟨new, hnew, hall⟩ := itb_broadcast_msg_loop_spec _ _ _ _ _ hloop
    refine ⟨new, ?_, ?_⟩
    · simp at h
      simp [← h, hnew]
    · intro i hi
      simpa using hall i hi

/-! ## The queue -/

theorem next_eq_mod (C head : Nat) (hh : head < C) :
    (if head + 1 = C then 0 else head + 1) = (head + 1) % C := by
  split
  · rename_i h
    simp [h]
  · rw [Nat.mod_eq_of_lt (by omega)]

theorem held_lt_iff (C head tail : Nat) (hh : head < C) (ht : tail < C) :
    (((head : Int) - (tail : Int)) % (C : Int) < (C : Int) - 1) ↔ (head + 1) % C ≠ tail := by
  have hnext := next_eq_mod C head hh
  rw [← hnext]
  by_cases hle : tail ≤ head
  · have h1 : ((head : Int) - (tail : Int)) % (C : Int) = (head : Int) - (tail : Int) :=
      Int.emod_eq_of_lt (by omega) (by omega)
    rw [h1]
    split <;> omega
  · have h1 : ((head : Int) - (tail : Int)) % (C : Int) = (head : Int) - (tail : Int) + C := by
      rw [← Int.add_emod_self]
      exact Int.emod_eq_of_lt (by omega) (by omega)
    rw [h1]
    split <;> omega

theorem queue_msg_spec (C : Nat) (msg : itb_broadcast_msg_t) (g : globals)
    (hh : g.queue.head < C) (hlen : g.queue.buffer.length = C) :
    itb_broadcast_queue_msg C msg g =
      if (g.queue.head + 1) % C = g.queue.tail then
        some (-1, { g with itb_queue_mut := false })
      else
        some (0, { g with
          queue := { buffer := g.queue.buffer.set ((g.queue.head + 1) % C) msg
                     head := (g.queue.head + 1) % C
                     tail := g.queue.tail }
          itb_queue_mut := false
          itb_queue_sem := g.itb_queue_sem + 1 }) := by
  have hnext := next_eq_mod C g.queue.head hh
  have hlt : (g.queue.head + 1) % C < C := Nat.mod_lt _ (by omega)
  unfold itb_broadcast_queue_msg
  simp only [hnext]
  split
  · rfl
  · simp [hlen, hlt]

theorem handler_iteration_spec (C : Nat) (g g1 : globals)
    (h : itb_broadcast_handler_iteration C g = some g1) :
    0 < g.itb_queue_sem ∧
    ((g.queue.tail = g.queue.head ∧
        g1 = { g with itb_queue_sem := g.itb_queue_sem - 1, itb_queue_mut := false }) ∨
     (g.queue.tail ≠ g.queue.head ∧ ∃ msg new,
        g.queue.buffer[g.queue.tail]? = some msg ∧
        g1 = { g with
          itb_queue_sem := g.itb_queue_sem - 1
          queue := { g.queue with
            tail := if g.queue.tail + 1 = C then 0 else g.queue.tail + 1 }
          itb_queue_mut := false
          itb_broadcast_mut := false
          broadcasts := g.broadcasts ++ [msg]
          calls := g.calls ++ new } ∧
        ∀ i ∈ new, i.msg = msg ∧ i.itb_queue_mut = true ∧ i.itb_broadcast_mut = true)) := by
  unfold itb_broadcast_handler_iteration at h
  split at h
  · simp at h
  · rename_i hsem
    refine ⟨by omega, ?_⟩
    simp only at h
    split at h
    · rename_i hne
      right
      refine ⟨hne, ?_⟩
      split at h
      · simp at h
      · rename_i msg hmsg
        split at h
        · simp at h
        · rename_i g2 hdisp
          obtain ⟨new, hnew, hall⟩ := itb_broadcast_msg_spec _ _ _ hdisp
          refine ⟨msg, new, hmsg, ?_, ?_⟩
          · simp at h
            simp [← h, hnew]
          · intro i hi
            simpa using hall i hi
    · rename_i heq
      left
      simp at heq
      refine ⟨heq, ?_⟩
      simp at h
      simp [← h]

theorem queue_msgs_append (C : Nat) (a b : List itb_broadcast_msg_t) (g : globals) :
    queue_msgs C (a ++ b) g =
      match queue_msgs C a g with
      | none => none
      | some (ra, g1) =>
        match queue_msgs C b g1 with
        | none => none
        | some (rb, g2) => some (ra ++ rb, g2) := by
  induction a generalizing g with
  | nil =>
    simp only [List.nil_append, queue_msgs]
    cases queue_msgs C b g with
    | none => rfl
    | some p => rfl
  | cons m ms ih =>
    rw [List.cons_append]
    simp only [queue_msgs]
    cases hq : itb_broadcast_queue_msg C m g with
    | none => rfl
    | some p =>
      obtain ⟨r, g1⟩ := p
      simp only
      rw [ih g1]
      cases queue_msgs C ms g1 with
      | none => rfl
      | some p1 =>
        obtain ⟨rs, g2⟩ := p1
        simp only
        cases queue_msgs C b g2 with
        | none => rfl
        | some p2 => rfl

theorem queue_msgs_fill (C : Nat) (ms : List itb_broadcast_msg_t) (g : globals)
    (htail : g.queue.tail = 0) (hlen : g.queue.buffer.length = C)
    (hroom : g.queue.head + ms.length < C) :
    ∃ g1, queue_msgs C ms g = some (List.replicate ms.length 0, g1) ∧
      g1.queue.head = g.queue.head + ms.length ∧ g1.queue.tail = 0 ∧
      g1.queue.buffer.length = C ∧ g1.itb_queue_sem = g.itb_queue_sem + ms.length := by
  induction ms generalizing g with
  | nil => exact ⟨g, by simp [queue_msgs, htail, hlen]⟩
  | cons m ms ih =>
    simp only [List.length_cons] at hroom
    have hspec := queue_msg_spec C m g (by omega) hlen
    have hmod : (g.queue.head + 1) % C = g.queue.head + 1 := Nat.mod_eq_of_lt (by omega)
    rw [hmod, htail, if_neg (by omega)] at hspec
    obtain ⟨g1, hrun, hhead, htl, hl, hsem⟩ := ih
      { g with
        queue := { buffer := g.queue.buffer.set (g.queue.head + 1) m
                   head := g.queue.head + 1
                   tail := 0 }
        itb_queue_mut := false
        itb_queue_sem := g.itb_queue_sem + 1 }
      rfl (by simpa using hlen) (by simp only; omega)
    refine ⟨g1, ?_, ?_, htl, hl, ?_⟩
    · simp only [queue_msgs, hspec, hrun]
      simp [List.replicate_succ]
    · simp only at hhead
      simp only [hhead, List.length_cons]
      omega
    · simp only at hsem
      simp only [hsem, List.length_cons]
      omega

theorem held_eq (C head tail : Nat) (hh : head < C) (ht : tail < C) :
    ((head : Int) - (tail : Int)) % (C : Int) =
      if tail ≤ head then (head : Int) - (tail : Int) else (head : Int) - (tail : Int) + C := by
  split
  · exact Int.emod_eq_of_lt (by omega) (by omega)
  · rw [← Int.add_emod_self]
    exact Int.emod_eq_of_lt (by omega) (by omega)

/-- The invariant of the queue: both indices are in the array and the
semaphore counts the messages held. -/
theorem reachable_inv (C : Nat) (hC : 0 < C) (g : globals) (h : reachable C g) :
    g.queue.head < C ∧ g.queue.tail < C ∧ g.queue.buffer.length = C ∧
    (g.itb_queue_sem : Int) = ((g.queue.head : Int) - (g.queue.tail : Int)) % (C : Int) := by
  induction h with
  | init g0 hlen =>
    refine ⟨hC, hC, by simpa [itb_broadcast_init] using hlen, ?_⟩
    simp [itb_broadcast_init]
  | queue_msg g0 msg r g1 _ hstep ih =>
    obtain ⟨hh, ht, hlen, hsem⟩ := ih
    rw [queue_msg_spec C msg g0 hh hlen] at hstep
    rw [held_eq C _ _ hh ht] at hsem
    have hnext := next_eq_mod C g0.queue.head hh
    have hlt : (g0.queue.head + 1) % C < C := Nat.mod_lt _ hC
    split at hstep
    · simp only [Option.some.injEq, Prod.mk.injEq] at hstep
      obtain ⟨_, rfl⟩ := hstep
      refine ⟨hh, ht, hlen, ?_⟩
      rw [held_eq C _ _ hh ht]
      exact hsem
    · rename_i hne
      simp only [Option.some.injEq, Prod.mk.injEq] at hstep
      obtain ⟨_, rfl⟩ := hstep
      refine ⟨hlt, ht, by simpa using hlen, ?_⟩
      simp only
      rw [held_eq C _ _ hlt ht]
      rw [← hnext] at hne ⊢
      push_cast
      split at hsem <;> split <;> split <;> split at hne <;> omega
  | worker g0 g1 _ hstep ih =>
    obtain ⟨hh, ht, hlen, hsem⟩ := ih
    rw [held_eq C _ _ hh ht] at hsem
    obtain ⟨hpos, hcase⟩ := handler_iteration_spec C _ _ hstep
    rcases hcase with ⟨heq, _⟩ | ⟨hne, msg, new, _, hg1, _⟩
    · rw [heq] at hsem
      simp at hsem
      omega
    · have hlt : (if g0.queue.tail + 1 = C then 0 else g0.queue.tail + 1) < C := by
        split <;> omega
      subst hg1
      refine ⟨hh, hlt, hlen, ?_⟩
      simp only
      rw [held_eq C _ _ hh hlt]
      push_cast
      split at hsem <;> split <;> split <;> omega

/-- Claim C2.  On a queue with `head, tail < C` that already holds `C - 1`
messages, `(head + 1) mod C = tail`, `itb_broadcast_queue_msg` returns `-1` for
every message, and the globals after the call are the globals before it with
`itb_queue_mut` released: `head`, `tail`, every buffer slot and the permit count
of the semaphore are untouched. -/
theorem queue_msg_full_rejected (C : Nat) (msg : itb_broadcast_msg_t) (g : globals)
    (hh : g.queue.head < C) (_ht : g.queue.tail < C)
    (hfull : (g.queue.head + 1) % C = g.queue.tail) :
    itb_broadcast_queue_msg C msg g = some (-1, { g with itb_queue_mut := false }) ∧
    ∀ r g1, itb_broadcast_queue_msg C msg g = some (r, g1) →
      r = -1 ∧ g1.queue.head = g.queue.head ∧ g1.queue.tail = g.queue.tail ∧
      g1.queue.buffer = g.queue.buffer ∧ g1.itb_queue_sem = g.itb_queue_sem := by
  have hnext := next_eq_mod C g.queue.head hh
  have hmain : itb_broadcast_queue_msg C msg g = some (-1, { g with itb_queue_mut := false }) := by
    unfold itb_broadcast_queue_msg
    simp only [hnext, hfull]
    simp
  refine ⟨hmain, ?_⟩
  intro r g1 h
  rw [hmain] at h
  simp at h
  obtain ⟨rfl, rfl⟩ := h
  simp

theorem queue_msg_full_rejected_witness :
    full_queue.queue.head < 4 ∧ full_queue.queue.tail < 4 ∧
    (full_queue.queue.head + 1) % 4 = full_queue.queue.tail ∧
    itb_broadcast_queue_msg 4 ⟨0, 42⟩ full_queue =
      some (-1, { full_queue with itb_queue_mut := false }) :=
  ⟨by decide, by decide, by decide,
    (queue_msg_full_rejected 4 ⟨0, 42⟩ full_queue (by decide) (by decide) (by decide)).1⟩

/-- Claim C3.  On a queue with `head, tail < C`, `itb_broadcast_queue_msg`
returns `0` exactly when the queue holds fewer than `C - 1` messages,
`(head - tail) mod C < C - 1`, and `-1` otherwise.  From the queue left by
`itb_broadcast_init`, `C - 1` consecutive calls return `0` and the next returns
`-1`; after an iteration of the worker, which advances `tail`, the next call
returns `0` again. -/
theorem queue_msg_succeeds_iff_room (C : Nat) (msg : itb_broadcast_msg_t) (g : globals)
    (hh : g.queue.head < C) (ht : g.queue.tail < C) (hlen : g.queue.buffer.length = C) :
    (∃ r g1, itb_broadcast_queue_msg C msg g = some (r, g1) ∧ (r = 0 ∨ r = -1) ∧
      (r = 0 ↔ ((g.queue.head : Int) - (g.queue.tail : Int)) % (C : Int) < (C : Int) - 1)) ∧
    (∀ (g0 : globals) (ms : List itb_broadcast_msg_t) (m : itb_broadcast_msg_t),
      g0.queue.buffer.length = C → ms.length = C - 1 →
      ∃ g1, queue_msgs C (ms ++ [m]) (itb_broadcast_init g0) =
          some (List.replicate (C - 1) 0 ++ [-1], g1) ∧
        ∀ g2 m2, itb_broadcast_handler_iteration C g1 = some g2 →
          g2.queue.tail = 1 ∧ g2.queue.head = g1.queue.head ∧
          ∃ g3, itb_broadcast_queue_msg C m2 g2 = some (0, g3)) := by
  constructor
  · have hspec := queue_msg_spec C msg g (by omega) hlen
    have hiff := held_lt_iff C g.queue.head g.queue.tail hh ht
    by_cases hfull : (g.queue.head + 1) % C = g.queue.tail
    · rw [if_pos hfull] at hspec
      refine ⟨-1, _, hspec, Or.inr rfl, ?_⟩
      rw [hiff]
      simp [hfull]
    · rw [if_neg hfull] at hspec
      refine ⟨0, _, hspec, Or.inl rfl, ?_⟩
      rw [hiff]
      simp [hfull]
  · intro g0 ms m hlen0 hms
    obtain ⟨g1, hrun, hhead, htail, hl, hsem⟩ := queue_msgs_fill C ms (itb_broadcast_init g0)
      (by simp [itb_broadcast_init]) (by simpa [itb_broadcast_init] using hlen0)
      (by simp [itb_broadcast_init]; omega)
    have hhead1 : g1.queue.head = C - 1 := by
      simp [itb_broadcast_init] at hhead
      omega
    have hsem1 : g1.itb_queue_sem = C - 1 := by
      simp [itb_broadcast_init] at hsem
      omega
    have hfull : (g1.queue.head + 1) % C = g1.queue.tail := by
      rw [hhead1, htail]
      have : C - 1 + 1 = C := by omega
      rw [this, Nat.mod_self]
    have hlast := queue_msg_spec C m g1 (by omega) hl
    rw [if_pos hfull] at hlast
    refine ⟨{ g1 with itb_queue_mut := false }, ?_, ?_⟩
    · rw [queue_msgs_append, hrun]
      simp only [queue_msgs, hlast, hms]
    · intro g2 m2 hworker
      obtain ⟨hpos, hcase⟩ := handler_iteration_spec C _ _ hworker
      simp only [hsem1] at hpos
      rcases hcase with ⟨heq, _⟩ | ⟨_, msg1, new, _, hg2, _⟩
      · simp only [htail, hhead1] at heq
        omega
      · have ht2 : g2.queue.tail = 1 := by
          rw [hg2]
          simp only [htail]
          rw [if_neg (by omega)]
        have hh2 : g2.queue.head = C - 1 := by
          rw [hg2]
          simpa using hhead1
        have hl2 : g2.queue.buffer.length = C := by
          rw [hg2]
          simpa using hl
        have hnext := queue_msg_spec C m2 g2 (by omega) hl2
        have hmod : (g2.queue.head + 1) % C = 0 := by
          rw [hh2]
          have : C - 1 + 1 = C := by omega
          rw [this, Nat.mod_self]
        rw [hmod, ht2, if_neg (by omega)] at hnext
        exact ⟨ht2, by simp [hh2, hhead1], _, hnext⟩

theorem queue_msg_succeeds_iff_room_witness :
    scenario_b.queue.head < 4 ∧ scenario_b.queue.tail < 4 ∧
    scenario_b.queue.buffer.length = 4 ∧
    ∃ g1 g2 g3,
      queue_msgs 4 ([⟨0, 1⟩, ⟨0, 2⟩, ⟨0, 3⟩] ++ [⟨0, 4⟩]) (itb_broadcast_init scenario_b) =
        some ([0, 0, 0, -1], g1) ∧
      itb_broadcast_handler_iteration 4 g1 = some g2 ∧
      itb_broadcast_queue_msg 4 ⟨0, 5⟩ g2 = some (0, g3) := by
  refine ⟨by decide, by decide, by decide, ?_⟩
  obtain ⟨g1, hrun, hnext⟩ :=
    (queue_msg_succeeds_iff_room 4 ⟨0, 1⟩ scenario_b (by decide) (by decide) (by decide)).2
      scenario_b [⟨0, 1⟩, ⟨0, 2⟩, ⟨0, 3⟩] ⟨0, 4⟩ (by decide) (by decide)
  have hsome : ((queue_msgs 4 ([⟨0, 1⟩, ⟨0, 2⟩, ⟨0, 3⟩] ++ [⟨0, 4⟩])
      (itb_broadcast_init scenario_b)).bind
        (fun p => itb_broadcast_handler_iteration 4 p.2)).isSome = true := by decide
  rw [hrun] at hsome
  obtain ⟨g2, hg2⟩ := Option.isSome_iff_exists.1 hsome
  obtain ⟨_, _, g3, hg3⟩ := hnext g2 ⟨0, 5⟩ hg2
  exact ⟨g1, g2, g3, hrun, hg2, hg3⟩

/-- Claim C10.  In every state reached from `itb_broadcast_init` by complete
`itb_broadcast_queue_msg` calls and complete worker iterations, `head < C`,
`tail < C`, and the permit count of the semaphore is the number of messages
held, `(head - tail) mod C`.  Hence a worker iteration that has a permit finds
`tail != head` and reads a slot of the buffer, no completed worker iteration
took the empty-queue branch, and the slot `itb_broadcast_queue_msg` writes is
in the buffer, so the call always returns. -/
theorem reachable_queue_invariant (C : Nat) (hC : 0 < C) (g : globals) (h : reachable C g) :
    g.queue.head < C ∧ g.queue.tail < C ∧
    (g.itb_queue_sem : Int) = ((g.queue.head : Int) - (g.queue.tail : Int)) % (C : Int) ∧
    (0 < g.itb_queue_sem →
      g.queue.tail ≠ g.queue.head ∧ ∃ msg, g.queue.buffer[g.queue.tail]? = some msg) ∧
    (∀ g1, itb_broadcast_handler_iteration C g = some g1 → g.queue.tail ≠ g.queue.head) ∧
    (if g.queue.head + 1 = C then 0 else g.queue.head + 1) < g.queue.buffer.length ∧
    (∀ msg, ∃ r g1, itb_broadcast_queue_msg C msg g = some (r, g1)) := by
  obtain ⟨hh, ht, hlen, hsem⟩ := reachable_inv C hC g h
  have hne : 0 < g.itb_queue_sem → g.queue.tail ≠ g.queue.head := by
    intro hpos heq
    rw [heq] at hsem
    simp at hsem
    omega
  refine ⟨hh, ht, hsem, ?_, ?_, ?_, ?_⟩
  · intro hpos
    refine ⟨hne hpos, g.queue.buffer[g.queue.tail], ?_⟩
    exact List.getElem?_eq_getElem (by omega)
  · intro g1 hstep
    exact hne (handler_iteration_spec C g g1 hstep).1
  · rw [hlen]
    split <;> omega
  · intro msg
    rw [queue_msg_spec C msg g hh hlen]
    split
    · exact ⟨_, _, rfl⟩
    · exact ⟨_, _, rfl⟩

theorem reachable_queue_invariant_witness :
    0 < 4 ∧ reachable 4 scenario_b_queued ∧
    scenario_b_queued.queue.head < 4 ∧ scenario_b_queued.queue.tail < 4 ∧
    (scenario_b_queued.itb_queue_sem : Int) =
      ((scenario_b_queued.queue.head : Int) - (scenario_b_queued.queue.tail : Int)) % ((4 : Nat) : Int) ∧
    scenario_b_queued.queue.tail ≠ scenario_b_queued.queue.head := by
  have hreach : reachable 4 scenario_b_queued :=
    reachable.queue_msg (itb_broadcast_init scenario_b) ⟨0, 42⟩ 0 scenario_b_queued
      (reachable.init scenario_b (by decide)) (by decide)
  have h := reachable_queue_invariant 4 (by decide) scenario_b_queued hreach
  exact ⟨by decide, hreach, h.1, h.2.1, h.2.2.1, (h.2.2.2.1 (by decide)).1⟩

/-! ## The registry -/

theorem set_length_append {α : Type} (l : List α) (a b : α) :
    (l ++ [a]).set l.length b = l ++ [b] := by
  induction l with
  | nil => rfl
  | cons x xs ih => simp [ih]

theorem set_same {α : Type} (l : List α) (n : Nat) (a : α) (h : l[n]? = some a) :
    l.set n a = l := by
  induction l generalizing n with
  | nil => rfl
  | cons x xs ih =>
    cases n with
    | zero =>
      simp at h
      simp [h]
    | succ n =>
      simp at h
      simp [ih n h]

theorem realloc_grow {α : Type} (fresh : α) (l : List α) :
    realloc (some fresh) l (l.length + 1) = some (l ++ [fresh]) := by
  simp [realloc, List.take_of_length_le]

theorem register_type_spec (f1 : Nat) (f2 : List callback_t) (g : globals)
    (h1 : g.itb_broadcast_type_totals.length = g.itb_broadcast_total_types)
    (h2 : g.itb_broadcast_callbacks.length = g.itb_broadcast_total_types) :
    itb_broadcast_register_type (some f1) (some f2) g =
      ((g.itb_broadcast_total_types : Int),
        { g with
          itb_queue_mut := false
          itb_broadcast_total_types := g.itb_broadcast_total_types + 1
          itb_broadcast_type_totals := g.itb_broadcast_type_totals ++ [0]
          itb_broadcast_callbacks := g.itb_broadcast_callbacks ++ [[]] }) := by
  have e1 := realloc_grow f1 g.itb_broadcast_type_totals
  have e2 := realloc_grow f2 g.itb_broadcast_callbacks
  rw [h1] at e1
  rw [h2] at e2
  unfold itb_broadcast_register_type
  simp only [e1, e2, Nat.add_sub_cancel]
  have s1 := set_length_append g.itb_broadcast_type_totals f1 0
  have s2 := set_length_append g.itb_broadcast_callbacks f2 []
  rw [h1] at s1
  rw [h2] at s2
  rw [s1, s2]

theorem register_types_spec (fs : List (Nat × List callback_t)) (g : globals)
    (h1 : g.itb_broadcast_type_totals.length = g.itb_broadcast_total_types)
    (h2 : g.itb_broadcast_callbacks.length = g.itb_broadcast_total_types) :
    (register_types fs g).1 =
      (List.range' g.itb_broadcast_total_types fs.length).map (fun i => (i : Int)) ∧
    (register_types fs g).2.itb_broadcast_total_types =
      g.itb_broadcast_total_types + fs.length ∧
    (register_types fs g).2.itb_broadcast_type_totals =
      g.itb_broadcast_type_totals ++ List.replicate fs.length 0 ∧
    (register_types fs g).2.itb_broadcast_callbacks =
      g.itb_broadcast_callbacks ++ List.replicate fs.length [] := by
  induction fs generalizing g with
  | nil => simp [register_types]
  | cons f rest ih =>
    have hstep := register_type_spec f.1 f.2 g h1 h2
    simp only [register_types, hstep]
    obtain ⟨i1, i2, i3, i4⟩ := ih
      { g with
        itb_queue_mut := false
        itb_broadcast_total_types := g.itb_broadcast_total_types + 1
        itb_broadcast_type_totals := g.itb_broadcast_type_totals ++ [0]
        itb_broadcast_callbacks := g.itb_broadcast_callbacks ++ [[]] }
      (by simp [h1]) (by simp [h2])
    simp only at i1 i2 i3 i4
    refine ⟨?_, ?_, ?_, ?_⟩
    · rw [i1]
      simp [List.range'_succ]
    · rw [i2]
      simp only [List.length_cons]
      omega
    · rw [i3]
      simp [List.replicate_succ]
    · rw [i4]
      simp [List.replicate_succ]

/-- Claim C4.  From a registry with `itb_broadcast_total_types = 0` and both
arrays null, `n` calls of `itb_broadcast_register_type` whose allocations all
succeed return `0, 1, ..., n - 1` in that order; afterwards
`itb_broadcast_total_types = n` and every type `i < n` has
`itb_broadcast_type_totals[i] = 0` and an empty callback list. -/
theorem register_type_sequential_ids (fs : List (Nat × List callback_t)) (g : globals)
    (h0 : g.itb_broadcast_total_types = 0) (h1 : g.itb_broadcast_type_totals = [])
    (h2 : g.itb_broadcast_callbacks = []) :
    (register_types fs g).1 = (List.range fs.length).map (fun i => (i : Int)) ∧
    (register_types fs g).2.itb_broadcast_total_types = fs.length ∧
    ∀ i, i < fs.length →
      (register_types fs g).2.itb_broadcast_type_totals[i]? = some 0 ∧
      callback_list (register_types fs g).2 i = [] := by
  obtain ⟨r1, r2, r3, r4⟩ := register_types_spec fs g (by simp [h0, h1]) (by simp [h0, h2])
  refine ⟨?_, ?_, ?_⟩
  · rw [r1, h0, List.range_eq_range']
  · rw [r2, h0]
    simp
  · intro i hi
    have ht : (register_types fs g).2.itb_broadcast_type_totals[i]? = some 0 := by
      rw [r3, h1]
      simp [List.getElem?_replicate, hi]
    refine ⟨ht, ?_⟩
    simp [callback_list, ht]

theorem register_type_sequential_ids_witness :
    (startup 16).itb_broadcast_total_types = 0 ∧
    (register_types [(7, [3]), (9, []), (1, [4, 5])] (startup 16)).1 = [0, 1, 2] ∧
    (register_types [(7, [3]), (9, []), (1, [4, 5])] (startup 16)).2.itb_broadcast_total_types
      = 3 := by
  have h := register_type_sequential_ids [(7, [3]), (9, []), (1, [4, 5])] (startup 16) rfl rfl rfl
  exact ⟨rfl, h.1, h.2.1⟩

theorem wf_type (g : globals) (t : Nat) (hwf : registry_wf g)
    (ht : t < g.itb_broadcast_total_types) :
    ∃ cbs, g.itb_broadcast_callbacks[t]? = some cbs ∧
      g.itb_broadcast_type_totals[t]? = some cbs.length := by
  obtain ⟨hlen, hmap⟩ := hwf
  have hl : g.itb_broadcast_callbacks.length = g.itb_broadcast_total_types := by
    rw [← hlen, ← hmap, List.length_map]
  have hlt : t < g.itb_broadcast_callbacks.length := by omega
  refine ⟨g.itb_broadcast_callbacks[t], List.getElem?_eq_getElem hlt, ?_⟩
  rw [← hmap, List.getElem?_map, List.getElem?_eq_getElem hlt]
  rfl

theorem callback_list_eq (g : globals) (t : Nat) (cbs : List callback_t)
    (hc : g.itb_broadcast_callbacks[t]? = some cbs)
    (htot : g.itb_broadcast_type_totals[t]? = some cbs.length) :
    callback_list g t = cbs := by
  simp [callback_list, hc, htot]

theorem msg_loop_runs (msg : itb_broadcast_msg_t) (cbs : List callback_t) (fuel j : Nat)
    (g : globals) (hc : g.itb_broadcast_callbacks[msg.type]? = some cbs)
    (htot : g.itb_broadcast_type_totals[msg.type]? = some cbs.length)
    (hj : j ≤ cbs.length) (hfuel : cbs.length - j < fuel) :
    itb_broadcast_msg_loop msg fuel j g =
      some { g with
        calls := (g.calls ++ invocations (cbs.drop j) msg g.itb_queue_mut g.itb_broadcast_mut) } := by
  induction fuel generalizing j g with
  | zero => omega
  | succ fuel ih =>
    unfold itb_broadcast_msg_loop
    simp only [htot, hc]
    by_cases hlt : j < cbs.length
    · rw [if_pos hlt]
      simp only [List.getElem?_eq_getElem hlt]
      rw [ih (j + 1) (invoke cbs[j] msg g) (by simpa [invoke] using hc)
        (by simpa [invoke] using htot) (by omega) (by omega)]
      simp only [invoke, invocations, List.append_assoc, List.singleton_append]
      rw [List.drop_eq_getElem_cons hlt, List.map_cons]
    · rw [if_neg hlt]
      have : cbs.drop j = [] := List.drop_eq_nil_of_le (by omega)
      simp [this, invocations]

theorem broadcast_msg_runs (msg : itb_broadcast_msg_t) (g : globals) (hwf : registry_wf g)
    (ht : msg.type < g.itb_broadcast_total_types) :
    itb_broadcast_msg msg g =
      some { g with
        broadcasts := g.broadcasts ++ [msg]
        itb_broadcast_mut := false
        calls := (g.calls ++ invocations (callback_list g msg.type) msg g.itb_queue_mut true) } := by
  obtain ⟨cbs, hc, htot⟩ := wf_type g msg.type hwf ht
  rw [callback_list_eq g msg.type cbs hc htot]
  unfold itb_broadcast_msg
  simp only [htot, Option.getD_some]
  rw [msg_loop_runs msg cbs (cbs.length + 1) 0 _ (by simpa using hc) (by simpa using htot)
    (by omega) (by omega)]
  simp

theorem register_callback_spec (r : Option callback_t) (t : Nat) (cb : callback_t)
    (cbs : List callback_t) (g : globals)
    (hc : g.itb_broadcast_callbacks[t]? = some cbs)
    (htot : g.itb_broadcast_type_totals[t]? = some cbs.length) :
    itb_broadcast_register_callback r t cb g =
      match r with
      | some _ =>
        some (0, { g with
          itb_queue_mut := false
          itb_broadcast_type_totals := g.itb_broadcast_type_totals.set t (cbs.length + 1)
          itb_broadcast_callbacks := g.itb_broadcast_callbacks.set t (cbs ++ [cb]) })
      | none =>
        if cbs.length = 0 then none
        else some (-1, { g with itb_queue_mut := false }) := by
  have hlt1 : t < g.itb_broadcast_type_totals.length := by
    rcases List.getElem?_eq_some.1 htot with ⟨h, _⟩
    exact h
  have hlt2 : t < g.itb_broadcast_callbacks.length := by
    rcases List.getElem?_eq_some.1 hc with ⟨h, _⟩
    exact h
  unfold itb_broadcast_register_callback
  simp only [htot]
  by_cases h0 : cbs.length = 0
  · have hnil : cbs = [] := List.length_eq_zero.1 h0
    subst hnil
    cases r with
    | none =>
      simp [hlt2, malloc, realloc, itb_broadcast_register_callback_store, hlt1]
    | some fresh =>
      simp [hlt2, malloc, realloc, itb_broadcast_register_callback_store, hlt1]
  · rw [if_neg h0]
    simp only [hc]
    cases r with
    | none =>
      simp only [realloc, if_neg h0, Nat.add_sub_cancel, List.set_set]
      rw [set_same _ _ _ htot]
    | some fresh =>
      have hgrow := realloc_grow fresh cbs
      simp only [hgrow, itb_broadcast_register_callback_store]
      simp [hlt1, hlt2, set_length_append]

theorem registry_wf_startup (C : Nat) : registry_wf (startup C) := by
  simp [registry_wf, startup]

theorem registry_wf_register_type (f1 : Nat) (f2 : List callback_t) (g : globals)
    (hwf : registry_wf g) :
    registry_wf (itb_broadcast_register_type (some f1) (some f2) g).2 := by
  obtain ⟨hlen, hmap⟩ := hwf
  have hl : g.itb_broadcast_callbacks.length = g.itb_broadcast_total_types := by
    rw [← hlen, ← hmap, List.length_map]
  rw [register_type_spec f1 f2 g hlen hl]
  constructor
  · simp [hlen]
  · simp [hmap]

theorem registry_wf_register_callback (r : Option callback_t) (t : Nat) (cb : callback_t)
    (g g1 : globals) (ret : Int) (hwf : registry_wf g)
    (ht : t < g.itb_broadcast_total_types)
    (h : itb_broadcast_register_callback r t cb g = some (ret, g1)) :
    registry_wf g1 := by
  obtain ⟨cbs, hc, htot⟩ := wf_type g t hwf ht
  obtain ⟨hlen, hmap⟩ := hwf
  rw [register_callback_spec r t cb cbs g hc htot] at h
  cases r with
  | none =>
    simp only at h
    split at h
    · simp at h
    · simp only [Option.some.injEq, Prod.mk.injEq] at h
      rw [← h.2]
      exact ⟨hlen, hmap⟩
  | some fresh =>
    simp only [Option.some.injEq, Prod.mk.injEq] at h
    rw [← h.2]
    constructor
    · simpa using hlen
    · simp [List.map_set, hmap]

/-- Claim C5.  On a well-formed registry, a call
`itb_broadcast_register_callback(t, cb)` that returns `0` on a registered type
`t` makes the callback list of `t` the old list followed by `cb` and leaves the
list of every other type as it was; and `itb_broadcast_msg(msg)` with
`msg.type = t` invokes exactly the callbacks of the list of `t`, once each, in
list order, each with the message `msg`, holding `itb_broadcast_mut`, both
before and after the registration. -/
theorem register_callback_appends_and_dispatch_in_order (r : Option callback_t) (t : Nat)
    (cb : callback_t) (g g1 : globals) (hwf : registry_wf g)
    (ht : t < g.itb_broadcast_total_types)
    (hreg : itb_broadcast_register_callback r t cb g = some (0, g1)) :
    callback_list g1 t = callback_list g t ++ [cb] ∧
    (∀ u, u ≠ t → callback_list g1 u = callback_list g u) ∧
    (∀ msg : itb_broadcast_msg_t, msg.type = t →
      itb_broadcast_msg msg g =
        some { g with
          broadcasts := g.broadcasts ++ [msg]
          itb_broadcast_mut := false
          calls := g.calls ++ invocations (callback_list g t) msg g.itb_queue_mut true } ∧
      itb_broadcast_msg msg g1 =
        some { g1 with
          broadcasts := g1.broadcasts ++ [msg]
          itb_broadcast_mut := false
          calls := (g1.calls ++
            invocations (callback_list g t ++ [cb]) msg g1.itb_queue_mut true) }) := by
  obtain ⟨cbs, hc, htot⟩ := wf_type g t hwf ht
  have hlt1 : t < g.itb_broadcast_type_totals.length := by
    rcases List.getElem?_eq_some.1 htot with ⟨h, _⟩
    exact h
  have hlt2 : t < g.itb_broadcast_callbacks.length := by
    rcases List.getElem?_eq_some.1 hc with ⟨h, _⟩
    exact h
  rw [register_callback_spec r t cb cbs g hc htot] at hreg
  have hg1 : g1 = { g with
      itb_queue_mut := false
      itb_broadcast_type_totals := g.itb_broadcast_type_totals.set t (cbs.length + 1)
      itb_broadcast_callbacks := g.itb_broadcast_callbacks.set t (cbs ++ [cb]) } := by
    cases r with
    | none =>
      simp only at hreg
      split at hreg
      · simp at hreg
      · simp at hreg
    | some fresh =>
      simp only [Option.some.injEq, Prod.mk.injEq, true_and] at hreg
      exact hreg.symm
  have hold := callback_list_eq g t cbs hc htot
  have hwf1 : registry_wf g1 := by
    subst hg1
    obtain ⟨hlen, hmap⟩ := hwf
    constructor
    · simpa using hlen
    · simp [List.map_set, hmap]
  have hnew : callback_list g1 t = cbs ++ [cb] := by
    subst hg1
    apply callback_list_eq
    · simp [hlt2]
    · simp [hlt1]
  refine ⟨by rw [hnew, hold], ?_, ?_⟩
  · intro u hu
    subst hg1
    simp [callback_list, List.getElem?_set_ne (Ne.symm hu)]
  · intro msg hmsg
    subst hmsg
    constructor
    · exact broadcast_msg_runs msg g hwf ht
    · have ht1 : msg.type < g1.itb_broadcast_total_types := by
        subst hg1
        exact ht
      rw [broadcast_msg_runs msg g1 hwf1 ht1, hnew, hold]

theorem register_callback_appends_and_dispatch_in_order_witness :
    registry_wf scenario_c_before ∧ 1 < scenario_c_before.itb_broadcast_total_types ∧
    itb_broadcast_register_callback (some 0) 1 11 scenario_c_before = some (0, scenario_c) ∧
    callback_list scenario_c 1 = [10, 11] ∧
    itb_broadcast_msg ⟨1, 42⟩ scenario_c =
      some { scenario_c with
        broadcasts := [⟨1, 42⟩]
        calls := [⟨10, ⟨1, 42⟩, false, true⟩, ⟨11, ⟨1, 42⟩, false, true⟩] } := by
  have hreg : itb_broadcast_register_callback (some 0) 1 11 scenario_c_before =
      some (0, scenario_c) := by decide
  have h := register_callback_appends_and_dispatch_in_order (some 0) 1 11 scenario_c_before
    scenario_c (by decide) (by decide) hreg
  exact ⟨by decide, by decide, hreg, h.1, (h.2.2 ⟨1, 42⟩ rfl).2⟩

theorem register_callback_total_types (r : Option callback_t) (t : Nat) (cb : callback_t)
    (g g1 : globals) (ret : Int)
    (h : itb_broadcast_register_callback r t cb g = some (ret, g1)) :
    g1.itb_broadcast_total_types = g.itb_broadcast_total_types := by
  have hstore : ∀ (g2 g3 : globals) (ret2 : Int),
      itb_broadcast_register_callback_store t cb g2 = some (ret2, g3) →
      g3.itb_broadcast_total_types = g2.itb_broadcast_total_types := by
    intro g2 g3 ret2 h2
    unfold itb_broadcast_register_callback_store at h2
    repeat' (split at h2)
    all_goals (first | (cases h2; rfl) | (cases h2))
  unfold itb_broadcast_register_callback at h
  simp only at h
  repeat' (split at h)
  all_goals (first | (cases h; rfl) | (cases h) | (rw [hstore _ _ _ h]))

theorem queue_msg_total_types (C : Nat) (msg : itb_broadcast_msg_t) (g g1 : globals)
    (ret : Int) (h : itb_broadcast_queue_msg C msg g = some (ret, g1)) :
    g1.itb_broadcast_total_types = g.itb_broadcast_total_types := by
  unfold itb_broadcast_queue_msg at h
  simp only at h
  repeat' (split at h)
  all_goals (first | (cases h; rfl) | (cases h))

theorem register_type_total_types (r1 : Option Nat) (r2 : Option (List callback_t))
    (g : globals) :
    (itb_broadcast_register_type r1 r2 g).2.itb_broadcast_total_types =
      g.itb_broadcast_total_types + 1 := by
  unfold itb_broadcast_register_type
  cases r1 <;> cases r2 <;> simp [realloc]

/-! ## The scenarios are states of the bus -/

theorem scenario_b_queued_reached :
    itb_broadcast_queue_msg 4 ⟨0, 42⟩ (itb_broadcast_init scenario_b) =
      some (0, scenario_b_queued) := by
  decide

theorem scenario_a_queued_reached :
    (itb_broadcast_register_callback (some 0) 0 10 scenario_b).bind
        (fun p => itb_broadcast_queue_msg 4 ⟨0, 42⟩ p.2) =
      some (0, scenario_a_queued) := by
  decide

theorem scenario_c_reached :
    ((itb_broadcast_register_callback (some 0) 1 10
        (register_types [(0, []), (0, [])] (startup 16)).2).bind
      (fun p => itb_broadcast_register_callback (some 0) 1 11 p.2)) =
      some (0, scenario_c) ∧
    itb_broadcast_register_callback (some 0) 1 10
        (register_types [(0, []), (0, [])] (startup 16)).2 =
      some (0, scenario_c_before) := by
  constructor <;> decide

/-! ## The claims that the code does not meet -/

/-- The first worker iteration after the first queued message hands
`itb_broadcast_msg` the content of slot 0 of the buffer as it was before the
message was queued, whatever the message is. -/
theorem first_worker_iteration_reads_slot_zero (C : Nat) (g0 g1 g2 : globals)
    (m : itb_broadcast_msg_t) (hlen : g0.queue.buffer.length = C) (hC : 0 < C)
    (hq : itb_broadcast_queue_msg C m (itb_broadcast_init g0) = some (0, g1))
    (hw : itb_broadcast_handler_iteration C g1 = some g2) :
    ∃ stale, g0.queue.buffer[0]? = some stale ∧ g2.broadcasts = g0.broadcasts ++ [stale] := by
  rw [queue_msg_spec C m (itb_broadcast_init g0) (by simpa [itb_broadcast_init] using hC)
    (by simpa [itb_broadcast_init] using hlen)] at hq
  split at hq
  · simp at hq
  · rename_i hne
    simp only [Option.some.injEq, Prod.mk.injEq, true_and] at hq
    subst hq
    have h1 : (1 : Nat) % C ≠ 0 := by simpa [itb_broadcast_init] using hne
    obtain ⟨_, hcase⟩ := handler_iteration_spec C _ _ hw
    rcases hcase with ⟨heq, _⟩ | ⟨_, msg, new, hread, hg2, _⟩
    · have h0 : (0 : Nat) = 1 % C := by simpa [itb_broadcast_init] using heq
      exact absurd h0.symm h1
    · refine ⟨msg, ?_, ?_⟩
      · simp only [itb_broadcast_init, Nat.zero_add] at hread
        rw [List.getElem?_set_ne h1] at hread
        exact hread
      · rw [hg2]
        simp [itb_broadcast_init]

/-- Claim C1, the code at the failing input.  On the bus of scenario B (four
slots, type 0 registered), the messages `(0, 41)` and `(0, 42)` are queued, both
calls returning `0`; the two worker iterations that follow hand
`itb_broadcast_msg` the zeroed slot 0 and then `(0, 41)`, not `(0, 41)` and
`(0, 42)`: `itb_broadcast_queue_msg` stores at `head + 1`, the worker reads at
`tail`. -/
theorem handler_dispatches_stale_slot :
    (queue_msgs 4 [⟨0, 41⟩, ⟨0, 42⟩] (itb_broadcast_init scenario_b)).map Prod.fst =
      some [0, 0] ∧
    ((queue_msgs 4 [⟨0, 41⟩, ⟨0, 42⟩] (itb_broadcast_init scenario_b)).bind
        (fun p => itb_broadcast_handler 4 2 p.2)).map (fun g => g.broadcasts) =
      some [⟨0, 0⟩, ⟨0, 41⟩] := by
  constructor <;> decide

/-- Claim C6, the code at the failing input.  On the startup registry a call of
`itb_broadcast_register_type` whose first or second `realloc` fails returns
`-1` and leaves `itb_broadcast_total_types = 1`: the increment at the top of
the function is not undone.  The next successful call returns `1`, where a call
on the untouched registry returns `0`. -/
theorem register_type_failure_keeps_increment :
    itb_broadcast_register_type none (some []) (startup 16) =
      (-1, { startup 16 with itb_broadcast_total_types := 1 }) ∧
    itb_broadcast_register_type (some 0) none (startup 16) =
      (-1, { startup 16 with itb_broadcast_total_types := 1 }) ∧
    (itb_broadcast_register_type (some 0) (some [])
      (itb_broadcast_register_type none (some []) (startup 16)).2).1 = 1 ∧
    (itb_broadcast_register_type (some 0) (some []) (startup 16)).1 = 0 := by
  refine ⟨?_, ?_, ?_, ?_⟩ <;> decide

/-- Claim C7, the code at the failing input.  On a registered type without
callback the result of the failed `malloc` is stored unchecked and the callback
is written through the null pointer: the call has no result.  On a type that
has a callback the failed `realloc` is detected: the call returns `-1` and the
globals are as before. -/
theorem register_callback_first_malloc_unchecked :
    itb_broadcast_register_callback none 0 7 scenario_b = none ∧
    itb_broadcast_register_callback none 1 11 scenario_c_before =
      some (-1, scenario_c_before) := by
  constructor <;> decide

/-- Claim C8, the code at the failing input.  On a four-slot bus whose type 0
has the callback `10` and whose queue holds one message, with both mutexes
free, a worker iteration invokes the callback while `itb_queue_mut` is locked
(third component of the invocation): the worker locks it before it reads the
slot at `tail` and unlocks it after the dispatch.  A direct `itb_broadcast_msg`
call on the same bus invokes the callback with `itb_broadcast_mut` locked and
`itb_queue_mut` free. -/
theorem handler_invokes_callback_under_queue_mut :
    scenario_a_queued.itb_queue_mut = false ∧ scenario_a_queued.itb_broadcast_mut = false ∧
    itb_broadcast_handler_iteration 4 scenario_a_queued = some scenario_a_drained ∧
    scenario_a_drained.calls = [⟨10, ⟨0, 0⟩, true, true⟩] ∧
    itb_broadcast_msg ⟨0, 42⟩ scenario_a_queued = some scenario_a_posted ∧
    scenario_a_posted.calls = [⟨10, ⟨0, 42⟩, false, true⟩] := by
  refine ⟨?_, ?_, ?_, ?_, ?_, ?_⟩ <;> decide

/-- The extent of the defect behind C8: in every worker iteration every callback
runs with `itb_queue_mut` locked, where a direct `itb_broadcast_msg` call made
with `itb_queue_mut` free runs every callback without it. -/
theorem worker_callbacks_hold_queue_mut (C : Nat) (g : globals)
    (hq : g.itb_queue_mut = false) :
    (∀ msg g1, itb_broadcast_msg msg g = some g1 →
      ∃ new, g1.calls = g.calls ++ new ∧
        ∀ i ∈ new, i.itb_broadcast_mut = true ∧ i.itb_queue_mut = false) ∧
    (∀ g1, itb_broadcast_handler_iteration C g = some g1 →
      ∃ new, g1.calls = g.calls ++ new ∧
        ∀ i ∈ new, i.itb_broadcast_mut = true ∧ i.itb_queue_mut = true) := by
  constructor
  · intro msg g1 h
    obtain ⟨new, hg1, hall⟩ := itb_broadcast_msg_spec msg g g1 h
    refine ⟨new, by rw [hg1], ?_⟩
    intro i hi
    obtain ⟨_, h2, h3⟩ := hall i hi
    exact ⟨h3, by rw [h2, hq]⟩
  · intro g1 h
    obtain ⟨_, hcase⟩ := handler_iteration_spec C g g1 h
    rcases hcase with ⟨_, hg1⟩ | ⟨_, msg, new, _, hg1, hall⟩
    · exact ⟨[], by rw [hg1]; simp, by simp⟩
    · refine ⟨new, by rw [hg1], ?_⟩
      intro i hi
      obtain ⟨_, h2, h3⟩ := hall i hi
      exact ⟨h3, h2⟩

/-! ## The type counter -/

theorem run_op_total_types (C : Nat) (op : bus_op) (g g1 : globals)
    (hne : op ≠ bus_op.close) (hrun : op.run C g = some g1) :
    g.itb_broadcast_total_types ≤ g1.itb_broadcast_total_types ∧
    g1.itb_broadcast_total_types ≤ g.itb_broadcast_total_types + 1 := by
  cases op with
  | init =>
    simp only [bus_op.run, Option.some.injEq] at hrun
    subst hrun
    simp [itb_broadcast_init]
  | register_type r1 r2 =>
    simp only [bus_op.run, Option.some.injEq] at hrun
    subst hrun
    simp [register_type_total_types]
  | register_callback r t cb =>
    simp only [bus_op.run, Option.map_eq_some'] at hrun
    obtain ⟨p, hp, rfl⟩ := hrun
    have := register_callback_total_types r t cb g p.2 p.1 hp
    simp [this]
  | msg m =>
    simp only [bus_op.run] at hrun
    obtain ⟨new, hg1, _⟩ := itb_broadcast_msg_spec m g g1 hrun
    simp [hg1]
  | queue_msg m =>
    simp only [bus_op.run, Option.map_eq_some'] at hrun
    obtain ⟨p, hp, rfl⟩ := hrun
    have := queue_msg_total_types C m g p.2 p.1 hp
    simp [this]
  | close => exact absurd rfl hne

theorem run_ops_total_types (C : Nat) (ops : List bus_op) (g g1 : globals)
    (hnc : bus_op.close ∉ ops) (hrun : run_ops C ops g = some g1) :
    g.itb_broadcast_total_types ≤ g1.itb_broadcast_total_types ∧
    g1.itb_broadcast_total_types ≤ g.itb_broadcast_total_types + ops.length := by
  induction ops generalizing g with
  | nil =>
    simp only [run_ops, Option.some.injEq] at hrun
    subst hrun
    simp
  | cons op ops ih =>
    simp only [List.mem_cons, not_or] at hnc
    simp only [run_ops] at hrun
    split at hrun
    · simp at hrun
    · rename_i g2 hop
      obtain ⟨h1, h2⟩ := run_op_total_types C op g g2 (Ne.symm hnc.1) hop
      obtain ⟨h3, h4⟩ := ih g2 hnc.2 hrun
      simp only [List.length_cons]
      omega

theorem register_type_return (r1 : Option Nat) (r2 : Option (List callback_t))
    (g : globals) :
    (itb_broadcast_register_type r1 r2 g).1 = -1 ∨
    (itb_broadcast_register_type r1 r2 g).1 = (g.itb_broadcast_total_types : Int) := by
  unfold itb_broadcast_register_type
  cases r1 <;> cases r2 <;> simp [realloc]

theorem close_total_types (g g1 : globals) (h : itb_broadcast_close g = some g1) :
    g1.itb_broadcast_total_types = 0 := by
  unfold itb_broadcast_close at h
  split at h
  · simp only [Option.some.injEq] at h
    subst h
    rfl
  · simp at h

/-- Claim C9, counterexample.  `itb_broadcast_close` on a registry with two
types returns and leaves `itb_broadcast_total_types = 0`, less than the value 2
it had before the call. -/
theorem close_resets_total_types :
    scenario_c.itb_broadcast_total_types = 2 ∧
    (bus_op.run 16 bus_op.close scenario_c).map (fun g => g.itb_broadcast_total_types) =
      some 0 := by
  constructor <;> decide

/-- Claim C9, amended.  Along every run of public operations other than
`itb_broadcast_close` (`itb_broadcast_init`, `itb_broadcast_register_type`,
`itb_broadcast_register_callback`, `itb_broadcast_msg`,
`itb_broadcast_queue_msg`) that keeps the counter below `INT_MAX`,
`itb_broadcast_total_types` does not decrease and stays below `INT_MAX`; an
identifier returned by a registration before the run is smaller than, hence
different from, the identifier returned by a registration after it; and
`itb_broadcast_close` sets the counter to 0. -/
theorem total_types_monotone_until_close (C : Nat) (ops : List bus_op) (g g1 : globals)
    (hnc : bus_op.close ∉ ops)
    (hbound : g.itb_broadcast_total_types + ops.length < INT_MAX)
    (hrun : run_ops C ops g = some g1) :
    g.itb_broadcast_total_types ≤ g1.itb_broadcast_total_types ∧
    g1.itb_broadcast_total_types < INT_MAX ∧
    (∀ r1 r2 g0, g = (itb_broadcast_register_type r1 r2 g0).2 →
      (itb_broadcast_register_type r1 r2 g0).1 ≠ -1 →
      ∀ r3 r4, (itb_broadcast_register_type r3 r4 g1).1 ≠ -1 →
        (itb_broadcast_register_type r1 r2 g0).1 < (itb_broadcast_register_type r3 r4 g1).1) ∧
    (∀ g2, itb_broadcast_close g1 = some g2 → g2.itb_broadcast_total_types = 0) := by
  obtain ⟨hle, hup⟩ := run_ops_total_types C ops g g1 hnc hrun
  refine ⟨hle, by omega, ?_, fun g2 h => close_total_types g1 g2 h⟩
  intro r1 r2 g0 hg hfirst r3 r4 hsecond
  have hstep : g.itb_broadcast_total_types = g0.itb_broadcast_total_types + 1 := by
    rw [hg, register_type_total_types]
  rcases register_type_return r1 r2 g0 with h1 | h1
  · exact absurd h1 hfirst
  · rcases register_type_return r3 r4 g1 with h2 | h2
    · exact absurd h2 hsecond
    · rw [h1, h2]
      omega

theorem total_types_monotone_until_close_witness :
    bus_op.close ∉ [bus_op.register_callback (some 0) 0 10, bus_op.queue_msg ⟨0, 42⟩,
      bus_op.msg ⟨0, 42⟩] ∧
    scenario_b.itb_broadcast_total_types + 3 < INT_MAX ∧
    run_ops 4 [bus_op.register_callback (some 0) 0 10, bus_op.queue_msg ⟨0, 42⟩,
      bus_op.msg ⟨0, 42⟩] scenario_b = some scenario_a_posted ∧
    scenario_b.itb_broadcast_total_types ≤ scenario_a_posted.itb_broadcast_total_types ∧
    (itb_broadcast_register_type (some 0) (some []) (itb_broadcast_init (startup 4))).1 <
      (itb_broadcast_register_type (some 0) (some []) scenario_a_posted).1 := by
  have hrun : run_ops 4 [bus_op.register_callback (some 0) 0 10, bus_op.queue_msg ⟨0, 42⟩,
      bus_op.msg ⟨0, 42⟩] scenario_b = some scenario_a_posted := by decide
  have h := total_types_monotone_until_close 4 _ scenario_b scenario_a_posted
    (by decide) (by decide) hrun
  exact ⟨by decide, by decide, hrun, h.1,
    h.2.2.1 (some 0) (some []) (itb_broadcast_init (startup 4)) rfl (by decide)
      (some 0) (some []) (by decide)⟩

end Itb
